import Mathlib

/-!
Shallow embedding of the core run-loop machinery of `trio/_core/_run.py`
(cancel scopes, deadline index, cancellation delivery, abort protocol,
nursery cleanup, scheduler batching, and the call-soon injection queue),
with theorems checking the natural-language specification against it.
-/

namespace Trio

/-- Deadlines are timestamps or `+∞` (`math.inf` in the source).  The source
stores floats; only finiteness and equality matter to the deadline index, so
finite deadlines are modelled as integers. -/
inductive Deadline where
  | fin (t : Int)
  | inf
deriving DecidableEq, Repr

/-- Source `CancelScope` from `_run.py` (attrs class): the per-scope mutable fields
used by cancellation and the deadline index.  Tasks are identified by numeric
ids; `sid` stands for the Python `id(self)` used as the index key.  The
per-task cached exception dict `_excs` is represented by the originating
scope id carried inside the delivered cause. -/
structure CancelScope where
  sid : Nat
  tasks : List Nat
  effectiveDeadline : Deadline
  deadline : Deadline
  shield : Bool
  cancelCalled : Bool
  cancelCaught : Bool
deriving DecidableEq, Repr

/-- Exceptions, as far as the core needs to distinguish them:
`Cancelled` carries its originating scope (`exc._scope`), `MultiError`
carries its list of member exceptions, and every other exception is opaque
(identified by a tag). -/
inductive Exc where
  | cancelled (scope : Nat)
  | multi (excs : List Exc)
  | other (tag : Nat)

/-- Source `isinstance(exc, Cancelled) and exc._scope is self`. -/
def isCancelledFrom (sid : Nat) : Exc → Bool
  | .cancelled s => s == sid
  | _ => false

/-- The possible returns of a Python abort callback: the two members of the
`Abort` enum, or any other Python value (`type(success) is not Abort`). -/
inductive PyAbort where
  | succeeded
  | failed
  | notAbort
deriving DecidableEq, Repr

/-- Source `Task` from `_run.py`, restricted to the fields the cancellation
machinery touches.  `abortFunc = none` means the task is runnable / running;
`some r` means it is suspended and its abort callback will return `r` when
invoked.  `nextSend` holds the `Result` a rescheduled task will be resumed
with (`Error(Cancelled)` is the case of interest here). -/
structure Task where
  cancelStack : List CancelScope
  abortFunc : Option PyAbort
  nextSend : Option Exc

/-- Source `Task._pending_cancel_scope`, translated statement by statement: two
consecutive `if`s, so a shielded scope resets the pending pointer and is
then itself still examined for `cancel_called`. -/
def pendingCancelScope (stack : List CancelScope) : Option CancelScope :=
  stack.foldl
    (fun pending scope =>
      let p1 := if scope.shield then none else pending
      if p1.isNone && scope.cancelCalled then some scope else p1)
    none

/-- The walk exactly as the claim words it: the cancel-requested check is an
alternative (`otherwise`) to the shield check, so a shielded scope can never
become the pending scope.  Written from the spec text, to be compared with
`pendingCancelScope`, which is written from the source. -/
def pendingCancelScopeClaim (stack : List CancelScope) : Option CancelScope :=
  stack.foldl
    (fun pending scope =>
      if scope.shield then none
      else if pending.isNone && scope.cancelCalled then some scope else pending)
    none

/-- The scopes the walk can actually select from: the last shielded scope
(it is still examined after resetting the pointer) followed by every scope
inward of it; the whole stack when no scope is shielded. -/
def deliveryCandidates (stack : List CancelScope) : List CancelScope :=
  match stack.reverse.dropWhile (fun s => !s.shield) with
  | [] => stack
  | sh :: _ => sh :: (stack.reverse.takeWhile (fun s => !s.shield)).reverse

/-- Outcome of one `_attempt_abort` / `_attempt_delivery_of_any_pending_cancel`
call: the task afterwards, whether the abort callback was invoked, whether
`Runner.reschedule` was called on the task, and whether `TrioInternalError`
was raised. -/
structure AttemptResult where
  task : Task
  attempted : Bool
  rescheduled : Bool
  internalError : Bool

/-- Source `Runner.reschedule(task, Result.capture(raise_cancel))`: store the
cancellation cause as the next send and clear the abort callback. -/
def reschedule (t : Task) (cause : Exc) : Task :=
  { t with nextSend := some cause, abortFunc := none }

/-- Source `Task._attempt_abort`: call the abort callback (`ret` is what it
returns); a non-`Abort` return raises `TrioInternalError` before anything is
mutated; otherwise the abort callback is cleared, and on `SUCCEEDED` the
task is rescheduled with the cancellation cause. -/
def attemptAbort (t : Task) (ret : PyAbort) (cause : Exc) : AttemptResult :=
  match ret with
  | .notAbort => ⟨t, true, false, true⟩
  | .failed => ⟨{ t with abortFunc := none }, true, false, false⟩
  | .succeeded => ⟨reschedule { t with abortFunc := none } cause, true, true, false⟩

/-- Source `Task._attempt_delivery_of_any_pending_cancel`: do nothing when the task
is not suspended or no scope is pending; otherwise build the cancellation
cause for the pending scope (`_make_exc`) and attempt the abort. -/
def attemptDelivery (t : Task) : AttemptResult :=
  match t.abortFunc with
  | none => ⟨t, false, false, false⟩
  | some ret =>
    match pendingCancelScope t.cancelStack with
    | none => ⟨t, false, false, false⟩
    | some scope => attemptAbort t ret (.cancelled scope.sid)

/-! ### Deadline index (`CancelScope._might_change_effective_deadline`) -/

/-- A cancel scope together with the runner's deadline index
(`Runner.deadlines`, a sorted dict keyed `(deadline, id(scope))`; only key
membership matters to the claims, so the index is its key list). -/
structure ScopeState where
  s : CancelScope
  idx : List (Deadline × Nat)
deriving DecidableEq, Repr

/-- The effective deadline recomputed in the `finally` block:
`inf` if `cancel_called or not self._tasks`, else `self._deadline`. -/
def effectiveOf (s : CancelScope) : Deadline :=
  if s.cancelCalled || s.tasks.isEmpty then .inf else s.deadline

/-- Keyed dict insertion: assigning to an existing key leaves the key set
unchanged, a new key is appended. -/
def dictInsert {α : Type} [DecidableEq α] (k : α) (q : List α) : List α :=
  if k ∈ q then q else q ++ [k]

/-- Source `CancelScope._might_change_effective_deadline`: run the body `f`, then
recompute the effective deadline; if it changed, delete the old index entry
(when the old value was finite) and insert the new one (when the new value
is finite). -/
def mightChangeEffectiveDeadline (f : CancelScope → CancelScope)
    (st : ScopeState) : ScopeState :=
  let s1 := f st.s
  let old := s1.effectiveDeadline
  let new := effectiveOf s1
  if old = new then ⟨s1, st.idx⟩
  else
    let s2 := { s1 with effectiveDeadline := new }
    let idx1 := if old ≠ Deadline.inf then st.idx.erase (old, s1.sid) else st.idx
    let idx2 := if new ≠ Deadline.inf then dictInsert (new, s1.sid) idx1 else idx1
    ⟨s2, idx2⟩

/-- The `deadline` property setter. -/
def setDeadline (d : Deadline) (st : ScopeState) : ScopeState :=
  mightChangeEffectiveDeadline (fun s => { s with deadline := d }) st

/-- Source `CancelScope._cancel_no_notify`: returns the updated state and the set
of affected tasks (empty when `cancel_called` was already set). -/
def cancelNoNotify (st : ScopeState) : ScopeState × List Nat :=
  if st.s.cancelCalled then (st, [])
  else (mightChangeEffectiveDeadline (fun s => { s with cancelCalled := true }) st,
        st.s.tasks)

/-- Source `CancelScope._remove_task` (the part that touches the task set and the
index; popping the task's cancel stack is not modelled here). -/
def removeTask (t : Nat) (st : ScopeState) : ScopeState :=
  mightChangeEffectiveDeadline (fun s => { s with tasks := s.tasks.erase t }) st

/-- Source `CancelScope._add_task`: adds the task to the scope's task set.  Note
that, unlike the other mutations, the source does *not* wrap this in
`_might_change_effective_deadline`: no index maintenance happens. -/
def addTask (t : Nat) (st : ScopeState) : ScopeState :=
  ⟨{ st.s with tasks := st.s.tasks.insert t }, st.idx⟩

/-- The deadline-index entries belonging to this scope. -/
def scopeEntries (st : ScopeState) : List (Deadline × Nat) :=
  st.idx.filter (fun e => e.2 == st.s.sid)

/-- The deadline-index invariant: the cached effective deadline agrees with
its defining formula, and the index holds exactly one entry for this scope,
keyed by the effective deadline, precisely when that deadline is finite
(i.e. the scope has a bound task, is not cancel-requested, and its deadline
is finite). -/
def Inv (st : ScopeState) : Prop :=
  st.s.effectiveDeadline = effectiveOf st.s ∧
  scopeEntries st =
    (if effectiveOf st.s = Deadline.inf then [] else [(effectiveOf st.s, st.s.sid)])

instance (st : ScopeState) : Decidable (Inv st) := by
  unfold Inv; infer_instance

/-! ### Scope-exit filtering (`CancelScope._filter_exception`) and nursery
cleanup (`Nursery._clean_up`) -/

/-- The loop body of the `MultiError` branch of `_filter_exception`: walk
the members, dropping each `Cancelled` originating from this scope (and
recording that `cancel_caught` was set), keeping the rest in order. -/
def filterMembers (sid : Nat) (excs : List Exc) : List Exc × Bool :=
  excs.foldl
    (fun acc sub =>
      if isCancelledFrom sid sub then (acc.1, true) else (acc.1 ++ [sub], acc.2))
    ([], false)

/-- Source `CancelScope._filter_exception`: returns the exception that propagates
(`none` when everything was absorbed) and whether `cancel_caught` was set by
this call. -/
def filterException (sid : Nat) (e : Exc) : Option Exc × Bool :=
  if isCancelledFrom sid e then (none, true)
  else
    match e with
    | .multi excs =>
      let (kept, caught) := filterMembers sid excs
      match kept with
      | [] => (none, caught)
      | [e1] => (some e1, caught)
      | _ => (some (.multi kept), caught)
    | _ => (some e, false)

/-- Modelled from the spec: the `MultiError` constructor lives in
`trio/_core/_exceptions.py`, whose version under `src/` does not define it;
per the spec, a length-1 cause list collapses to its sole member, and
otherwise the aggregate carries the list. -/
def multiErrorNew (excs : List Exc) : Exc :=
  match excs with
  | [e] => e
  | _ => .multi excs

/-- The reap loop of `Nursery._clean_up`, sequentialised: each loop
iteration reaps the zombies present at that point, appending the `Error`
causes (a child's result is `some e` when it finished with error `e`) to the
accumulated exception list.  Cancellation or KI arriving during the monitor
wait is outside this model. -/
def cleanUpLoop (exceptions : List Exc) : List (List (Option Exc)) → List Exc
  | [] => exceptions
  | batch :: rest => cleanUpLoop (exceptions ++ batch.filterMap id) rest

/-- Source `Nursery._clean_up`, final step included: after the reap loop, raise
`MultiError(exceptions)` when the list is non-empty (returned as `some`),
and raise nothing when it is empty.  `bodyExcs` is the exception list passed
in by `open_nursery` (the exception propagating through the nursery body, if
any). -/
def cleanUp (bodyExcs : List Exc) (batches : List (List (Option Exc))) : Option Exc :=
  let exceptions := cleanUpLoop bodyExcs batches
  if exceptions.isEmpty then none else some (multiErrorNew exceptions)

/-! ### The scheduler batch loop (`run_impl`) -/

/-- The run-loop state the batching claim is about: the run queue plus an
abstract remainder `inner` of the runner's state. -/
structure SchedState (σ : Type) where
  runq : List Nat
  inner : σ

/-- The inner `while batch:` loop of `run_impl`: step each task of the batch
once; stepping a task transforms the abstract state and produces the tasks
it made runnable (each `Runner.reschedule` during the step appends to the
run queue); the stepped tasks are recorded in order. -/
def runBatch {σ : Type} (step : σ → Nat → σ × List Nat) :
    List Nat → σ → List Nat → List Nat → σ × List Nat × List Nat
  | [], inner, rq, stepped => (inner, rq, stepped)
  | t :: rest, inner, rq, stepped =>
    let (inner1, news) := step inner t
    runBatch step rest inner1 (rq ++ news) (stepped ++ [t])

/-- One iteration of the `while runner.tasks:` loop, restricted to the batch
phase: snapshot the run queue, clear it, shuffle the snapshot (`perm`), and
step every task of the snapshot.  Returns the state afterwards and the list
of tasks stepped in this batch. -/
def iteration {σ : Type} (perm : List Nat → List Nat)
    (step : σ → Nat → σ × List Nat) (st : SchedState σ) : SchedState σ × List Nat :=
  let batch := perm st.runq
  let (inner1, rq1, stepped) := runBatch step batch st.inner [] []
  (⟨rq1, inner1⟩, stepped)

/-- The tasks enqueued (made runnable) while a batch runs, in order. -/
def batchEnqueues {σ : Type} (step : σ → Nat → σ × List Nat) :
    List Nat → σ → List Nat
  | [], _ => []
  | t :: rest, inner =>
    let (inner1, news) := step inner t
    news ++ batchEnqueues step rest inner1

/-! ### The injection queue (`Runner.call_soon_thread_and_signal_safe` and
the drain in `Runner.call_soon_task`) -/

/-- An injection-queue job key: the `(fn, args)` pair, opaque to the core. -/
abbrev CallKey := Nat × Nat

/-- The injection-queue state owned by the runner: the closed flag, the
ordered queue, the idempotent queue (a dict, represented by its key list in
insertion order; all values are `None`), and a count of wakeup-channel
signals. -/
structure InjState where
  callSoonDone : Bool
  callSoonQueue : List CallKey
  callSoonIdempotentQueue : List CallKey
  wakeups : Nat
deriving DecidableEq, Repr

/-- Source `Runner.call_soon_thread_and_signal_safe`: under the lock, raise
`RunFinishedError` when the drain task has closed the queue (second
component `true`, state untouched); otherwise store the job in the queue
selected by `idempotent` and signal the wakeup channel. -/
def callSoonThreadAndSignalSafe (idempotent : Bool) (k : CallKey)
    (st : InjState) : InjState × Bool :=
  if st.callSoonDone then (st, true)
  else
    ({ st with
        callSoonIdempotentQueue :=
          if idempotent then dictInsert k st.callSoonIdempotentQueue
          else st.callSoonIdempotentQueue,
        callSoonQueue :=
          if idempotent then st.callSoonQueue else st.callSoonQueue ++ [k],
        wakeups := st.wakeups + 1 },
      false)

/-- A sequence of idempotent enqueues (`enqueueAll ks q` posts the keys of
`ks` in order, starting from idempotent-queue contents `q`). -/
def enqueueAll (ks : List CallKey) (q : List CallKey) : List CallKey :=
  ks.foldl (fun q1 k => dictInsert k q1) q

/-- The idempotent half of `run_all_bounded` in `Runner.call_soon_task`:
`for job in list(queue): del queue[job]; run_cb(job)` — every key present is
delivered exactly once, in order, and the queue is empty afterwards.
Returns (delivered jobs, queue afterwards). -/
def drainIdempotent (q : List CallKey) : List CallKey × List CallKey :=
  (q, [])

/-! ### Concrete instances used by counterexamples and witnesses -/

/-- A scope that is both shielded and cancel-requested. -/
def shieldedCancelledScope : CancelScope :=
  { sid := 7, tasks := [1], effectiveDeadline := .inf, deadline := .inf,
    shield := true, cancelCalled := true, cancelCaught := false }

/-- A plain cancel-requested, unshielded scope. -/
def cancelledScope : CancelScope :=
  { sid := 3, tasks := [0], effectiveDeadline := .inf, deadline := .inf,
    shield := false, cancelCalled := true, cancelCaught := false }

/-- A task suspended inside `cancelledScope` whose abort callback will
return `ret`. -/
def suspendedTask (ret : PyAbort) : Task :=
  ⟨[cancelledScope], some ret, none⟩

/-- A scope with a finite deadline, no bound task, and a consistent (empty)
deadline index. -/
def emptyFiniteScopeState : ScopeState :=
  ⟨{ sid := 0, tasks := [], effectiveDeadline := .inf, deadline := .fin 5,
     shield := false, cancelCalled := false, cancelCaught := false }, []⟩

/-- A scope with one bound task and a finite deadline, registered in the
deadline index. -/
def liveScopeState : ScopeState :=
  ⟨{ sid := 0, tasks := [1], effectiveDeadline := .fin 3, deadline := .fin 3,
     shield := false, cancelCalled := false, cancelCaught := false },
   [(.fin 3, 0)]⟩

/-- The state `liveScopeState` after its cancel flag has been set. -/
def cancelledScopeState : ScopeState :=
  ⟨{ sid := 0, tasks := [1], effectiveDeadline := .inf, deadline := .fin 3,
     shield := false, cancelCalled := true, cancelCaught := false }, []⟩

/-! ## Theorems

### C1: the cancellation-delivery walk -/

theorem pending_concat (stack : List CancelScope) (s : CancelScope) :
    pendingCancelScope (stack ++ [s]) =
      (let p1 := if s.shield then none else pendingCancelScope stack
       if p1.isNone && s.cancelCalled then some s else p1) := by
  simp [pendingCancelScope, List.foldl_append]

theorem deliveryCandidates_concat_shield (stack : List CancelScope)
    (s : CancelScope) (h : s.shield = true) :
    deliveryCandidates (stack ++ [s]) = [s] := by
  simp [deliveryCandidates, List.reverse_append, List.dropWhile_cons,
        List.takeWhile_cons, h]

theorem deliveryCandidates_concat_noshield (stack : List CancelScope)
    (s : CancelScope) (h : s.shield = false) :
    deliveryCandidates (stack ++ [s]) = deliveryCandidates stack ++ [s] := by
  rcases h1 : stack.reverse.dropWhile (fun x => !x.shield) with _ | ⟨sh, rest⟩ <;>
    simp [deliveryCandidates, List.reverse_append, List.dropWhile_cons,
          List.takeWhile_cons, h, h1]

theorem pendingCancelScope_eq_find (stack : List CancelScope) :
    pendingCancelScope stack =
      (deliveryCandidates stack).find? (fun s => s.cancelCalled) := by
  induction stack using List.reverseRecOn with
  | nil => rfl
  | append_singleton stack s ih =>
    rw [pending_concat, ih]
    by_cases hs : s.shield
    · rw [deliveryCandidates_concat_shield _ _ hs]
      cases hc : s.cancelCalled <;> simp [hs, hc, List.find?]
    · have hs' : s.shield = false := by simpa using hs
      rw [deliveryCandidates_concat_noshield _ _ hs', List.find?_append]
      cases hfind : (deliveryCandidates stack).find? (fun x => x.cancelCalled) <;>
        cases hc : s.cancelCalled <;> simp [hs', hc, List.find?]

/-- C1 counterexample: the two checks in `_pending_cancel_scope` are
consecutive `if`s, not alternatives, so a shielded scope that is itself
cancel-requested *does* become the pending scope — the walk as the claim
words it (`pendingCancelScopeClaim`) yields null on the same stack. -/
theorem c1_counterexample :
    pendingCancelScope [shieldedCancelledScope] = some shieldedCancelledScope ∧
    pendingCancelScopeClaim [shieldedCancelledScope] = none := by
  decide

/-- C1 (amended): the walk resets the pending pointer on a shielded scope
and then still examines that same scope's cancel flag, so the pending scope
is the outermost cancel-requested scope among the last shielded scope and
everything inward of it (the whole stack when nothing is shielded); the
abort callback is invoked exactly when the task is suspended and this
pending pointer is non-null. -/
theorem c1_amended :
    (∀ stack : List CancelScope,
      pendingCancelScope stack =
        (deliveryCandidates stack).find? (fun s => s.cancelCalled)) ∧
    (∀ t : Task,
      (attemptDelivery t).attempted =
        (t.abortFunc.isSome && (pendingCancelScope t.cancelStack).isSome)) := by
  refine ⟨pendingCancelScope_eq_find, ?_⟩
  intro t
  cases haf : t.abortFunc with
  | none => simp [attemptDelivery, haf]
  | some ret =>
    cases hp : pendingCancelScope t.cancelStack with
    | none => simp [attemptDelivery, haf, hp]
    | some sc => cases ret <;> simp [attemptDelivery, haf, hp, attemptAbort]

/-! ### C5 and C10: the abort protocol -/

/-- C5: when the runner invokes a suspended task's abort callback to
deliver a pending cancellation and the callback returns a member of the
`Abort` enum, the callback is cleared either way, the task is rescheduled
iff the return was `SUCCEEDED` (with the cancellation cause of the pending
scope as its next send), no internal error is raised, and no second abort
attempt can happen for this suspension. -/
theorem c5_abort_delivery (t : Task) (ret : PyAbort) (sc : CancelScope)
    (h1 : t.abortFunc = some ret)
    (h2 : pendingCancelScope t.cancelStack = some sc)
    (h3 : ret = PyAbort.succeeded ∨ ret = PyAbort.failed) :
    (attemptDelivery t).task.abortFunc = none ∧
    ((attemptDelivery t).rescheduled = true ↔ ret = PyAbort.succeeded) ∧
    ((attemptDelivery t).rescheduled = true →
      (attemptDelivery t).task.nextSend = some (Exc.cancelled sc.sid)) ∧
    (attemptDelivery t).internalError = false ∧
    (attemptDelivery (attemptDelivery t).task).attempted = false := by
  rcases h3 with h | h <;> subst h <;>
    simp [attemptDelivery, h1, h2, attemptAbort, reschedule]

theorem c5_abort_delivery_witness :
    (suspendedTask .succeeded).abortFunc = some PyAbort.succeeded ∧
    pendingCancelScope (suspendedTask .succeeded).cancelStack = some cancelledScope ∧
    ((attemptDelivery (suspendedTask .succeeded)).task.abortFunc = none ∧
     ((attemptDelivery (suspendedTask .succeeded)).rescheduled = true ↔
       PyAbort.succeeded = PyAbort.succeeded) ∧
     ((attemptDelivery (suspendedTask .succeeded)).rescheduled = true →
       (attemptDelivery (suspendedTask .succeeded)).task.nextSend =
         some (Exc.cancelled cancelledScope.sid)) ∧
     (attemptDelivery (suspendedTask .succeeded)).internalError = false ∧
     (attemptDelivery (attemptDelivery (suspendedTask .succeeded)).task).attempted
       = false) :=
  ⟨rfl, by decide,
   c5_abort_delivery (suspendedTask .succeeded) PyAbort.succeeded cancelledScope
     rfl (by decide) (Or.inl rfl)⟩

/-- C10: an abort callback that returns a value outside the `Abort` enum
makes the delivery attempt raise `TrioInternalError`; the exception
propagates before the callback slot is touched, so the task is left exactly
as it was (abort callback not cleared) and it is not rescheduled. -/
theorem c10_bad_abort_return (t : Task) (sc : CancelScope)
    (h1 : t.abortFunc = some PyAbort.notAbort)
    (h2 : pendingCancelScope t.cancelStack = some sc) :
    (attemptDelivery t).internalError = true ∧
    (attemptDelivery t).task = t ∧
    (attemptDelivery t).rescheduled = false := by
  simp [attemptDelivery, h1, h2, attemptAbort]

theorem c10_bad_abort_return_witness :
    (suspendedTask .notAbort).abortFunc = some PyAbort.notAbort ∧
    pendingCancelScope (suspendedTask .notAbort).cancelStack = some cancelledScope ∧
    ((attemptDelivery (suspendedTask .notAbort)).internalError = true ∧
     (attemptDelivery (suspendedTask .notAbort)).task = suspendedTask .notAbort ∧
     (attemptDelivery (suspendedTask .notAbort)).rescheduled = false) :=
  ⟨rfl, by decide,
   c10_bad_abort_return (suspendedTask .notAbort) cancelledScope rfl (by decide)⟩

/-! ### C2 and C9: the deadline index and cancel idempotence -/

theorem filter_erase_self {α : Type} [BEq α] [LawfulBEq α] (p : α → Bool)
    (a : α) (l : List α) (hp : p a = true) (h : l.filter p = [a]) :
    (l.erase a).filter p = [] := by
  induction l with
  | nil => simp at h
  | cons b l ih =>
    cases hba : b == a
    · rw [List.erase_cons_tail (by simp [hba])]
      cases hpb : p b
      · rw [List.filter_cons_of_neg (by simp [hpb])] at h
        rw [List.filter_cons_of_neg (by simp [hpb])]
        exact ih h
      · exfalso
        rw [List.filter_cons_of_pos hpb] at h
        have hb : b = a := (List.cons.injEq _ _ _ _ ▸ h).1
        rw [hb] at hba
        simp at hba
    · have hb : b = a := eq_of_beq hba
      subst hb
      rw [List.erase_cons_head]
      rw [List.filter_cons_of_pos hp] at h
      exact (List.cons.injEq _ _ _ _ ▸ h).2

theorem not_mem_of_filter_nil {α : Type} (p : α → Bool) (l : List α) (a : α)
    (h : l.filter p = []) (hp : p a = true) : a ∉ l := by
  intro hmem
  have : a ∈ l.filter p := List.mem_filter.mpr ⟨hmem, hp⟩
  simp [h] at this

theorem inv_mightChange (f : CancelScope → CancelScope) (st : ScopeState)
    (hsid : (f st.s).sid = st.s.sid)
    (heff : (f st.s).effectiveDeadline = st.s.effectiveDeadline)
    (h : Inv st) : Inv (mightChangeEffectiveDeadline f st) := by
  obtain ⟨h1, h2⟩ := h
  have hold : (f st.s).effectiveDeadline = effectiveOf st.s := heff.trans h1
  have hscope : st.idx.filter (fun e => e.2 == (f st.s).sid) =
      if effectiveOf st.s = Deadline.inf then []
      else [(effectiveOf st.s, (f st.s).sid)] := by
    have := h2
    simp only [scopeEntries] at this
    rw [show (fun e : Deadline × Nat => e.2 == (f st.s).sid) =
          (fun e : Deadline × Nat => e.2 == st.s.sid) by rw [hsid], this, hsid]
  by_cases heq : (f st.s).effectiveDeadline = effectiveOf (f st.s)
  · have hmc : mightChangeEffectiveDeadline f st = ⟨f st.s, st.idx⟩ := by
      simp only [mightChangeEffectiveDeadline, if_pos heq]
    rw [hmc]
    have hsame : effectiveOf (f st.s) = effectiveOf st.s := heq.symm.trans hold
    refine ⟨heq, ?_⟩
    show st.idx.filter (fun e => e.2 == (f st.s).sid) = _
    rw [hscope, hsame]
  · have hmc : mightChangeEffectiveDeadline f st =
        ⟨{ f st.s with effectiveDeadline := effectiveOf (f st.s) },
         if effectiveOf (f st.s) ≠ Deadline.inf then
           dictInsert (effectiveOf (f st.s), (f st.s).sid)
             (if (f st.s).effectiveDeadline ≠ Deadline.inf then
                st.idx.erase ((f st.s).effectiveDeadline, (f st.s).sid)
              else st.idx)
         else
           (if (f st.s).effectiveDeadline ≠ Deadline.inf then
              st.idx.erase ((f st.s).effectiveDeadline, (f st.s).sid)
            else st.idx)⟩ := by
      simp only [mightChangeEffectiveDeadline, if_neg heq]
    rw [hmc]
    refine ⟨rfl, ?_⟩
    show (if effectiveOf (f st.s) ≠ Deadline.inf then
            dictInsert (effectiveOf (f st.s), (f st.s).sid)
              (if (f st.s).effectiveDeadline ≠ Deadline.inf then
                 st.idx.erase ((f st.s).effectiveDeadline, (f st.s).sid)
               else st.idx)
          else
            (if (f st.s).effectiveDeadline ≠ Deadline.inf then
               st.idx.erase ((f st.s).effectiveDeadline, (f st.s).sid)
             else st.idx)).filter (fun e => e.2 == (f st.s).sid) =
      if effectiveOf (f st.s) = Deadline.inf then []
      else [(effectiveOf (f st.s), (f st.s).sid)]
    by_cases hoi : (f st.s).effectiveDeadline = Deadline.inf
    · -- the old effective deadline was infinite: nothing to delete
      have hni : effectiveOf (f st.s) ≠ Deadline.inf := fun hc =>
        heq (hoi.trans hc.symm)
      have hfe : st.idx.filter (fun e => e.2 == (f st.s).sid) = [] := by
        rw [hscope, if_pos (hold.symm.trans hoi)]
      have hnm : (effectiveOf (f st.s), (f st.s).sid) ∉ st.idx :=
        not_mem_of_filter_nil _ _ _ hfe (by simp)
      rw [if_pos hni, if_neg (by simp [hoi] : ¬(f st.s).effectiveDeadline ≠ Deadline.inf)]
      simp only [dictInsert, if_neg hnm]
      rw [List.filter_append, hfe, if_neg hni]
      simp
    · -- the old effective deadline was finite: its entry is deleted
      have hfi : st.idx.filter (fun e => e.2 == (f st.s).sid) =
          [((f st.s).effectiveDeadline, (f st.s).sid)] := by
        rw [hscope, if_neg (fun hc => hoi (hold.trans hc)), hold]
      have hfe : (st.idx.erase ((f st.s).effectiveDeadline,
          (f st.s).sid)).filter (fun e => e.2 == (f st.s).sid) = [] :=
        filter_erase_self _ _ _ (by simp) hfi
      by_cases hni : effectiveOf (f st.s) = Deadline.inf
      · rw [if_neg (by simp [hni] : ¬ effectiveOf (f st.s) ≠ Deadline.inf),
            if_pos (by simpa using hoi), hfe, if_pos hni]
      · have hnm : (effectiveOf (f st.s), (f st.s).sid) ∉
            st.idx.erase ((f st.s).effectiveDeadline, (f st.s).sid) :=
          not_mem_of_filter_nil _ _ _ hfe (by simp)
        rw [if_pos (by simpa using hni : effectiveOf (f st.s) ≠ Deadline.inf),
            if_pos (by simpa using hoi)]
        simp only [dictInsert, if_neg hnm]
        rw [List.filter_append, hfe, if_neg hni]
        simp

/-- C2 counterexample: `_add_task` performs no deadline-index maintenance,
so adding a task to a scope that has a finite deadline, no bound task yet,
and is not cancel-requested leaves the index without the entry the
invariant demands. -/
theorem c2_counterexample :
    Inv emptyFiniteScopeState ∧ ¬ Inv (addTask 1 emptyFiniteScopeState) := by
  decide

/-- C2 (amended): setting the deadline, cancelling, and removing a task
each go through `_might_change_effective_deadline`, which removes the stale
index entry and inserts the fresh one, so each preserves the index
invariant; adding a task performs no index maintenance and preserves the
invariant only when it cannot change the effective deadline — the scope
already has a bound task, is already cancel-requested, or has an infinite
deadline (which is the case at every call site of `_add_task`). -/
theorem c2_amended (st : ScopeState) (d : Deadline) (t : Nat) (h : Inv st) :
    Inv (setDeadline d st) ∧ Inv (cancelNoNotify st).1 ∧ Inv (removeTask t st) ∧
    ((st.s.tasks ≠ [] ∨ st.s.cancelCalled = true ∨ st.s.deadline = Deadline.inf) →
      Inv (addTask t st)) := by
  refine ⟨inv_mightChange _ st rfl rfl h, ?_, inv_mightChange _ st rfl rfl h, ?_⟩
  · unfold cancelNoNotify
    split
    · exact h
    · exact inv_mightChange _ st rfl rfl h
  · intro hc
    have heq : effectiveOf { st.s with tasks := st.s.tasks.insert t } =
        effectiveOf st.s := by
      rcases hc with hc | hc | hc
      · have h1 : st.s.tasks.isEmpty = false := by
          simpa [List.isEmpty_iff] using hc
        have h2 : (st.s.tasks.insert t).isEmpty = false := by
          simp only [List.insert]
          split
          · exact h1
          · rfl
        simp [effectiveOf, h1, h2]
      · simp [effectiveOf, hc]
      · simp only [effectiveOf, hc]
        split <;> split <;> rfl
    obtain ⟨h1, h2⟩ := h
    constructor
    · dsimp only [addTask]
      rw [heq]
      exact h1
    · dsimp only [scopeEntries, addTask]
      rw [heq]
      dsimp only [scopeEntries] at h2
      exact h2

theorem c2_amended_witness :
    Inv liveScopeState ∧
    (Inv (setDeadline (.fin 4) liveScopeState) ∧
     Inv (cancelNoNotify liveScopeState).1 ∧
     Inv (removeTask 1 liveScopeState) ∧
     Inv (addTask 2 liveScopeState)) :=
  ⟨by decide,
   (c2_amended liveScopeState (.fin 4) 1 (by decide)).1,
   (c2_amended liveScopeState (.fin 4) 1 (by decide)).2.1,
   (c2_amended liveScopeState (.fin 4) 1 (by decide)).2.2.1,
   (c2_amended liveScopeState (.fin 4) 2 (by decide)).2.2.2
     (Or.inl (by decide))⟩

/-- C9: cancelling is idempotent — once `cancel_called` is set,
`_cancel_no_notify` leaves the scope and the deadline index untouched and
reports no affected task, so `cancel()` notifies nobody; in particular
`cancel()` right after `cancel()` (second conjunct, for any starting state)
is a no-op. -/
theorem cancelNoNotify_called (st : ScopeState) (h : st.s.cancelCalled = true) :
    cancelNoNotify st = (st, []) := by
  simp [cancelNoNotify, h]

theorem mightChange_cancelCalled (f : CancelScope → CancelScope)
    (st : ScopeState) :
    ((mightChangeEffectiveDeadline f st).s).cancelCalled = (f st.s).cancelCalled := by
  simp only [mightChangeEffectiveDeadline]
  split <;> rfl

theorem c9_cancel_idempotent (st st2 : ScopeState) (h : st.s.cancelCalled = true) :
    cancelNoNotify st = (st, []) ∧
    cancelNoNotify (cancelNoNotify st2).1 = ((cancelNoNotify st2).1, []) := by
  refine ⟨cancelNoNotify_called st h, ?_⟩
  apply cancelNoNotify_called
  by_cases h2 : st2.s.cancelCalled = true
  · rw [cancelNoNotify_called st2 h2]
    exact h2
  · simp only [cancelNoNotify, if_neg h2]
    exact mightChange_cancelCalled _ st2

theorem c9_cancel_idempotent_witness :
    cancelledScopeState.s.cancelCalled = true ∧
    (cancelNoNotify cancelledScopeState = (cancelledScopeState, []) ∧
     cancelNoNotify (cancelNoNotify liveScopeState).1 =
       ((cancelNoNotify liveScopeState).1, [])) :=
  ⟨by decide, c9_cancel_idempotent cancelledScopeState liveScopeState (by decide)⟩

/-! ### C3 and C4: scope-exit filtering and nursery aggregation -/

theorem filterMembers_go (sid : Nat) (excs : List Exc) (acc : List Exc)
    (c : Bool) :
    excs.foldl
      (fun acc1 sub =>
        if isCancelledFrom sid sub then (acc1.1, true)
        else (acc1.1 ++ [sub], acc1.2)) (acc, c) =
      (acc ++ excs.filter (fun s => !isCancelledFrom sid s),
       c || excs.any (isCancelledFrom sid)) := by
  induction excs generalizing acc c with
  | nil => simp
  | cons e rest ih =>
    cases he : isCancelledFrom sid e <;>
      simp [he, ih, List.filter_cons, List.any_cons]

theorem filterException_multi (sid : Nat) (excs : List Exc) :
    filterException sid (.multi excs) =
      (match excs.filter (fun s => !isCancelledFrom sid s) with
       | [] => none
       | [e1] => some e1
       | kept => some (.multi kept),
       excs.any (isCancelledFrom sid)) := by
  have hfm : filterMembers sid excs =
      (excs.filter (fun s => !isCancelledFrom sid s),
       excs.any (isCancelledFrom sid)) := by
    simpa [filterMembers] using filterMembers_go sid excs [] false
  simp only [filterException]
  rw [if_neg (by simp [isCancelledFrom])]
  rw [hfm]
  dsimp only
  cases hk : excs.filter (fun s => !isCancelledFrom sid s) with
  | nil => rfl
  | cons e1 rest =>
    cases rest with
    | nil => rfl
    | cons e2 r2 => rfl

/-- C3: exiting a scope while an exception is in flight filters it exactly
as the claim states: a `Cancelled` originating here is absorbed (setting
`cancel_caught`); a `MultiError` loses every member originating here
(setting `cancel_caught` iff a member was removed) and propagates as
nothing, the sole survivor, or the aggregate of the survivors; everything
else — including a `Cancelled` of a different scope — propagates unchanged
without touching `cancel_caught`. -/
theorem c3_scope_exit_filter (sid : Nat) :
    (filterException sid (.cancelled sid) = (none, true)) ∧
    (∀ s : Nat, s ≠ sid →
      filterException sid (.cancelled s) = (some (.cancelled s), false)) ∧
    (∀ tag : Nat, filterException sid (.other tag) = (some (.other tag), false)) ∧
    (∀ excs : List Exc,
      filterException sid (.multi excs) =
        (match excs.filter (fun s => !isCancelledFrom sid s) with
         | [] => none
         | [e1] => some e1
         | kept => some (.multi kept),
         excs.any (isCancelledFrom sid))) := by
  refine ⟨?_, ?_, ?_, filterException_multi sid⟩
  · simp [filterException, isCancelledFrom]
  · intro s hs
    simp [filterException, isCancelledFrom, hs]
  · intro tag
    simp [filterException, isCancelledFrom]

theorem c3_scope_exit_filter_witness :
    (1 : Nat) ≠ 0 ∧
    (filterException 0 (.cancelled 0) = (none, true) ∧
     filterException 0 (.cancelled 1) = (some (.cancelled 1), false)) :=
  ⟨by decide,
   (c3_scope_exit_filter 0).1,
   (c3_scope_exit_filter 0).2.1 1 (by decide)⟩

theorem cleanUpLoop_spec (acc : List Exc) (batches : List (List (Option Exc))) :
    cleanUpLoop acc batches = acc ++ batches.flatten.filterMap id := by
  induction batches generalizing acc with
  | nil => simp [cleanUpLoop]
  | cons b rest ih =>
    simp [cleanUpLoop, ih, List.filterMap_append]

/-- C4: once all children are reaped, the nursery raises exactly the
aggregate of the collected causes — the exception that propagated through
the body followed by each failed child's cause — collapsing to the single
cause when exactly one was collected and raising nothing when none was. -/
theorem c4_nursery_aggregate (bodyExcs : List Exc)
    (batches : List (List (Option Exc))) :
    cleanUp bodyExcs batches =
      match bodyExcs ++ batches.flatten.filterMap id with
      | [] => none
      | [c] => some c
      | c1 :: c2 :: rest => some (.multi (c1 :: c2 :: rest)) := by
  unfold cleanUp
  rw [cleanUpLoop_spec]
  cases hc : bodyExcs ++ batches.flatten.filterMap id with
  | nil => simp [multiErrorNew]
  | cons c rest =>
    cases rest with
    | nil => simp [multiErrorNew]
    | cons c2 r2 => simp [multiErrorNew]

/-! ### C6: batch scheduling -/

theorem runBatch_spec {σ : Type} (step : σ → Nat → σ × List Nat)
    (batch : List Nat) :
    ∀ (inner : σ) (rq stepped : List Nat),
      (runBatch step batch inner rq stepped).2.1 =
        rq ++ batchEnqueues step batch inner ∧
      (runBatch step batch inner rq stepped).2.2 = stepped ++ batch := by
  induction batch with
  | nil =>
    intro inner rq stepped
    simp [runBatch, batchEnqueues]
  | cons t rest ih =>
    intro inner rq stepped
    rcases hstep : step inner t with ⟨inner1, news⟩
    simp only [runBatch, batchEnqueues, hstep]
    refine ⟨?_, ?_⟩
    · rw [(ih inner1 (rq ++ news) (stepped ++ [t])).1, List.append_assoc]
    · rw [(ih inner1 (rq ++ news) (stepped ++ [t])).2, List.append_assoc]
      rfl

/-- C6: one loop iteration snapshots the run queue and clears it before
stepping, so the batch it steps is exactly the (shuffled) pre-batch run
queue — nothing enqueued during the batch joins it — and the run queue left
for the next iteration is exactly the tasks enqueued during the batch, all
of which are then stepped in that next iteration. -/
theorem c6_batch_scheduling {σ : Type} (perm : List Nat → List Nat)
    (step : σ → Nat → σ × List Nat) (st : SchedState σ)
    (hperm : ∀ l : List Nat, (perm l).Perm l) :
    (iteration perm step st).2.Perm st.runq ∧
    (iteration perm step st).1.runq = batchEnqueues step (perm st.runq) st.inner ∧
    (∀ t : Nat, t ∈ (iteration perm step st).1.runq →
      t ∈ (iteration perm step (iteration perm step st).1).2) := by
  have hI : ∀ s : SchedState σ, (iteration perm step s).2 = perm s.runq ∧
      (iteration perm step s).1.runq = batchEnqueues step (perm s.runq) s.inner := by
    intro s
    have hspec := runBatch_spec step (perm s.runq) s.inner [] []
    rcases hrb : runBatch step (perm s.runq) s.inner [] [] with ⟨inner1, rq1, stepped⟩
    rw [hrb] at hspec
    simp only [iteration, hrb]
    simp only [List.nil_append] at hspec
    exact ⟨hspec.2, hspec.1⟩
  refine ⟨?_, (hI st).2, ?_⟩
  · rw [(hI st).1]
    exact hperm _
  · intro t ht
    rw [(hI (iteration perm step st).1).1]
    exact ((hperm _).mem_iff).mpr ht

theorem c6_batch_scheduling_witness :
    (iteration id (fun (_ : Unit) (_ : Nat) => ((), [1])) ⟨[0], ()⟩).2.Perm [0] ∧
    (iteration id (fun (_ : Unit) (_ : Nat) => ((), [1])) ⟨[0], ()⟩).1.runq =
      batchEnqueues (fun (_ : Unit) (_ : Nat) => ((), [1])) (id [0]) () :=
  ⟨(c6_batch_scheduling id (fun _ _ => ((), [1])) ⟨[0], ()⟩
      (fun l => List.Perm.refl l)).1,
   (c6_batch_scheduling id (fun _ _ => ((), [1])) ⟨[0], ()⟩
      (fun l => List.Perm.refl l)).2.1⟩

/-! ### C7 and C8: the injection queue -/

theorem mem_dictInsert {α : Type} [DecidableEq α] (k a : α) (q : List α) :
    a ∈ dictInsert k q ↔ a = k ∨ a ∈ q := by
  unfold dictInsert
  split
  case isTrue hk =>
    constructor
    · exact Or.inr
    · rintro (rfl | h)
      · exact hk
      · exact h
  case isFalse hk =>
    simp [List.mem_append, or_comm]

theorem nodup_dictInsert {α : Type} [DecidableEq α] (k : α) (q : List α)
    (h : q.Nodup) : (dictInsert k q).Nodup := by
  unfold dictInsert
  split
  case isTrue hk => exact h
  case isFalse hk =>
    rw [List.nodup_append]
    exact ⟨h, List.nodup_singleton k, by simpa using hk⟩

theorem mem_enqueueAll (ks q : List CallKey) (a : CallKey) :
    a ∈ enqueueAll ks q ↔ a ∈ ks ∨ a ∈ q := by
  induction ks generalizing q with
  | nil => simp [enqueueAll]
  | cons k rest ih =>
    have hstep : enqueueAll (k :: rest) q = enqueueAll rest (dictInsert k q) := rfl
    rw [hstep, ih, mem_dictInsert]
    simp [List.mem_cons]
    tauto

theorem nodup_enqueueAll (ks q : List CallKey) (h : q.Nodup) :
    (enqueueAll ks q).Nodup := by
  induction ks generalizing q with
  | nil => exact h
  | cons k rest ih => exact ih _ (nodup_dictInsert _ _ h)

theorem count_one_of_mem_nodup {α : Type} [BEq α] [LawfulBEq α] {l : List α}
    {a : α} (hn : l.Nodup) (hm : a ∈ l) : l.count a = 1 := by
  induction l with
  | nil => simp at hm
  | cons b l ih =>
    have hn2 := List.nodup_cons.mp hn
    cases hab : b == a
    · have hne : a ≠ b := fun hc => by simp [hc] at hab
      rw [List.count_cons, if_neg (by simpa using Ne.symm hne), Nat.add_zero]
      exact ih hn2.2 ((List.mem_cons.mp hm).resolve_left hne)
    · have heq : b = a := eq_of_beq hab
      subst heq
      rw [List.count_cons, if_pos (by simp), List.count_eq_zero.mpr hn2.1]

/-- C7: with `idempotent=True`, however many times equal `(fn, args)` keys
are posted between two drain passes (the idempotent dict is empty after a
pass), the next drain delivers each posted key exactly once — and leaves
the queue empty. -/
theorem c7_idempotent_collapse (ks : List CallKey) (k : CallKey) :
    (drainIdempotent (enqueueAll ks [])).1.count k =
      (if k ∈ ks then 1 else 0) ∧
    (drainIdempotent (enqueueAll ks [])).2 = [] := by
  refine ⟨?_, rfl⟩
  dsimp only [drainIdempotent]
  by_cases h : k ∈ ks
  · rw [if_pos h]
    exact count_one_of_mem_nodup (nodup_enqueueAll ks [] (by simp))
      ((mem_enqueueAll ks [] k).mpr (Or.inl h))
  · rw [if_neg h, List.count_eq_zero]
    intro hmem
    exact h (((mem_enqueueAll ks [] k).mp hmem).resolve_right (by simp))

/-- C8: posting to the injection queue raises `RunFinishedError` exactly
when the drain task has closed it; on failure nothing is stored and no
wakeup is issued, and otherwise the job lands in the queue selected by
`idempotent` (the other queue untouched) and one wakeup is signalled. -/
theorem c8_enqueue_protocol (idem : Bool) (k : CallKey) (st : InjState) :
    ((callSoonThreadAndSignalSafe idem k st).2 = st.callSoonDone) ∧
    (st.callSoonDone = true → (callSoonThreadAndSignalSafe idem k st).1 = st) ∧
    (st.callSoonDone = false →
      ((callSoonThreadAndSignalSafe idem k st).1.wakeups = st.wakeups + 1 ∧
       (callSoonThreadAndSignalSafe idem k st).1.callSoonDone = false ∧
       (idem = true →
         (callSoonThreadAndSignalSafe idem k st).1.callSoonIdempotentQueue =
           dictInsert k st.callSoonIdempotentQueue ∧
         (callSoonThreadAndSignalSafe idem k st).1.callSoonQueue =
           st.callSoonQueue) ∧
       (idem = false →
         (callSoonThreadAndSignalSafe idem k st).1.callSoonQueue =
           st.callSoonQueue ++ [k] ∧
         (callSoonThreadAndSignalSafe idem k st).1.callSoonIdempotentQueue =
           st.callSoonIdempotentQueue))) := by
  cases hd : st.callSoonDone <;> cases idem <;>
    simp [callSoonThreadAndSignalSafe, hd]

theorem c8_enqueue_protocol_witness :
    ((callSoonThreadAndSignalSafe false (1, 2) ⟨true, [], [], 0⟩).1 =
      (⟨true, [], [], 0⟩ : InjState)) ∧
    ((callSoonThreadAndSignalSafe false (1, 2) ⟨false, [], [], 0⟩).1.wakeups =
      (⟨false, [], [], 0⟩ : InjState).wakeups + 1) ∧
    ((callSoonThreadAndSignalSafe true (1, 2) ⟨false, [], [], 0⟩).1.callSoonIdempotentQueue =
      dictInsert (1, 2) (⟨false, [], [], 0⟩ : InjState).callSoonIdempotentQueue) :=
  ⟨(c8_enqueue_protocol false (1, 2) ⟨true, [], [], 0⟩).2.1 (by decide),
   ((c8_enqueue_protocol false (1, 2) ⟨false, [], [], 0⟩).2.2 (by decide)).1,
   (((c8_enqueue_protocol true (1, 2) ⟨false, [], [], 0⟩).2.2 (by decide)).2.2.1
      (by decide)).1⟩

end Trio
